import Mathlib

/-!
Verification of the preset storage/merge/versioning engine of
`src/gst/gstpreset.c` (the default `GstPreset` interface implementation).

The embedding models a GLib `GKeyFile` as a list of named groups, each
holding an ordered list of key/value entries; comments may be attached to
the file, to a group, or to a key.  The `GKeyFile` operations follow the
documented GLib semantics used by the C code:
  * `g_key_file_set_value` creates the group and/or key when missing;
  * `g_key_file_set_comment` FAILS (and with a `NULL` error argument,
    silently does nothing) when the addressed group or key does not exist;
  * `g_key_file_remove_group` / `g_key_file_remove_key` silently do
    nothing (error ignored) when the target does not exist;
  * lookups return `NULL` (here `none`) for missing groups/keys.

External collaborators (the filesystem, `g_key_file_to_data`,
`g_file_set_contents`, property introspection and GValue
serialization) are modelled as explicit oracle inputs, so each
source function becomes a pure function of its inputs.
-/

namespace GstPreset

structure KeyEntry where
  key : String
  comment : Option String
  value : String
deriving DecidableEq

structure KFGroup where
  name : String
  comment : Option String
  entries : List KeyEntry
deriving DecidableEq

structure KeyFile where
  fileComment : Option String
  groups : List KFGroup
deriving DecidableEq

def emptyKeyFile : KeyFile := ⟨none, []⟩

/-- First group with the given name (groups in a loaded key file are unique). -/
def lookupGroup (kf : KeyFile) (g : String) : Option KFGroup :=
  kf.groups.find? (fun gr => gr.name == g)

def hasGroup (kf : KeyFile) (g : String) : Bool :=
  (lookupGroup kf g).isSome

def KFGroup.lookupEntry (gr : KFGroup) (k : String) : Option KeyEntry :=
  gr.entries.find? (fun e => e.key == k)

def KFGroup.hasKey (gr : KFGroup) (k : String) : Bool :=
  (gr.lookupEntry k).isSome

/-- Apply `f` to the first group named `g`; leave the list unchanged otherwise. -/
def updateGroup : List KFGroup → String → (KFGroup → KFGroup) → List KFGroup
  | [], _, _ => []
  | gr :: rest, g, f => if gr.name == g then f gr :: rest else gr :: updateGroup rest g f

/-- Apply `f` to the first entry with key `k`. -/
def updateEntry : List KeyEntry → String → (KeyEntry → KeyEntry) → List KeyEntry
  | [], _, _ => []
  | e :: rest, k, f => if e.key == k then f e :: rest else e :: updateEntry rest k f

/-- `g_key_file_set_value` restricted to one group: overwrite the value of an
existing key (keeping its comment) or append a fresh comment-free entry. -/
def KFGroup.setEntryValue (gr : KFGroup) (k v : String) : KFGroup :=
  if gr.hasKey k then
    { gr with entries := updateEntry gr.entries k (fun e => { e with value := v }) }
  else
    { gr with entries := gr.entries ++ [⟨k, none, v⟩] }

/-- `g_key_file_set_value`: creates the group (appended last, without a
comment) when it is missing. -/
def setValue (kf : KeyFile) (g k v : String) : KeyFile :=
  if hasGroup kf g then
    { kf with groups := updateGroup kf.groups g (fun gr => gr.setEntryValue k v) }
  else
    { kf with groups := kf.groups ++ [⟨g, none, [⟨k, none, v⟩]⟩] }

/-- `g_key_file_get_value`: `NULL` when the group or the key is missing. -/
def getValue (kf : KeyFile) (g k : String) : Option String :=
  (lookupGroup kf g).bind (fun gr => (gr.lookupEntry k).map (fun e => e.value))

/-- `g_key_file_remove_group` (error ignored): drop the group wholesale,
including its comment and all of its keys. -/
def removeGroup (kf : KeyFile) (g : String) : KeyFile :=
  { kf with groups := kf.groups.filter (fun gr => gr.name != g) }

/-- `g_key_file_remove_key` (error ignored): no-op when group or key missing. -/
def removeKey (kf : KeyFile) (g k : String) : KeyFile :=
  { kf with groups := (updateGroup kf.groups g
      (fun gr => { gr with entries := gr.entries.filter (fun e => e.key != k) })) }

/-- `g_key_file_set_comment (kf, g, NULL, c)`: fails silently when the group
does not exist. -/
def setGroupComment (kf : KeyFile) (g c : String) : KeyFile :=
  { kf with groups := updateGroup kf.groups g (fun gr => { gr with comment := some c }) }

def getGroupComment (kf : KeyFile) (g : String) : Option String :=
  (lookupGroup kf g).bind (fun gr => gr.comment)

/-- `g_key_file_set_comment (kf, g, k, c)`: fails silently when the group or
the key does not exist. -/
def setKeyComment (kf : KeyFile) (g k c : String) : KeyFile :=
  { kf with groups := (updateGroup kf.groups g
      (fun gr =>
        if gr.hasKey k then
          { gr with entries := updateEntry gr.entries k (fun e => { e with comment := some c }) }
        else gr)) }

def getKeyComment (kf : KeyFile) (g k : String) : Option String :=
  (lookupGroup kf g).bind (fun gr => (gr.lookupEntry k).bind (fun e => e.comment))

/-- `g_key_file_get_keys` for an existing group (the C callers only use it
after establishing the group exists; a missing group yields `[]` here). -/
def getKeys (kf : KeyFile) (g : String) : List String :=
  ((lookupGroup kf g).map (fun gr => gr.entries.map (fun e => e.key))).getD []

def getGroups (kf : KeyFile) : List String :=
  kf.groups.map (fun gr => gr.name)

/-- The shape a key/value entry takes after being copied by the merge (the
attempted comment copy is a no-op, so only key and value survive). -/
def stripEntry (e : KeyEntry) : KeyEntry := ⟨e.key, none, e.value⟩

/-- `groups[i][0] == '_'` — the C test for a private group name (an empty
name reads the terminating NUL, which is not an underscore). -/
def isPrivateName (s : String) : Bool :=
  match s.data with
  | [] => false
  | c :: _ => c == '_'

def PRESET_HEADER : String := "_presets_"
def PRESET_HEADER_ELEMENT_NAME : String := "element-name"
def PRESET_HEADER_VERSION : String := "version"

/-! ### `preset_parse_version` (gstpreset.c:253-271)

`sscanf (str, "%d.%d.%d.%d", &major, &minor, &micro, &nano)` followed by
`version = ((((major << 8 | minor) << 8) | micro) << 8) | nano` computed in
32-bit `gint` arithmetic and assigned to a `guint64`.  The scanner model
follows C `sscanf` semantics: `%d` skips whitespace, accepts an optional
sign and at least one decimal digit; the literal `.` must match exactly;
scanning stops at the first failure and the number of completed
assignments is the length of the returned component list. -/

def isSpaceChar (c : Char) : Bool :=
  c == ' ' || c == '\t' || c == '\n' || c == '\r' || c == '\x0b' || c == '\x0c'

def skipWs : List Char → List Char
  | [] => []
  | c :: cs => if isSpaceChar c then skipWs cs else c :: cs

def digitsToNat (ds : List Char) : Nat :=
  ds.foldl (fun a c => a * 10 + (c.toNat - '0'.toNat)) 0

/-- One `%d` conversion: `none` on matching failure. -/
def scanInt (cs : List Char) : Option (Int × List Char) :=
  let cs1 := skipWs cs
  let sgncs : Int × List Char :=
    match cs1 with
    | '-' :: rest => (-1, rest)
    | '+' :: rest => (1, rest)
    | _ => (1, cs1)
  let ds := sgncs.2.takeWhile Char.isDigit
  if ds.isEmpty then none
  else some (sgncs.1 * Int.ofNat (digitsToNat ds), sgncs.2.drop ds.length)

/-- Scan up to `n` further `".%d"` pieces. -/
def scanTail : Nat → List Char → List Int
  | 0, _ => []
  | Nat.succ n, cs =>
    match cs with
    | '.' :: rest =>
      match scanInt rest with
      | some (v, cs2) => v :: scanTail n cs2
      | none => []
    | _ => []

/-- The list of components assigned by `sscanf (str, "%d.%d.%d.%d", ...)`. -/
def sscanf4 (s : String) : List Int :=
  match scanInt s.data with
  | none => []
  | some (v, cs) => v :: scanTail 3 cs

/-- Two's-complement bit pattern of a C `gint` value. -/
def gbits (z : Int) : Nat := (z % ((2 : Int) ^ 32)).toNat

/-- 32-bit wrap-around of an overflowing `gint` shift (two's complement). -/
def wrap32 (n : Nat) : Nat := n % 2 ^ 32

/-- Conversion of the final `gint` bit pattern to `guint64` (sign extension). -/
def sext64 (b : Nat) : Nat := if b < 2 ^ 31 then b else 2 ^ 64 - 2 ^ 32 + b

def preset_parse_version (s : String) : Nat :=
  let comps := sscanf4 s
  let major := comps.getD 0 0
  let minor := comps.getD 1 0
  let micro := comps.getD 2 0
  let nano := comps.getD 3 0
  if comps.length > 1 then
    let o1 := wrap32 (gbits major <<< 8) ||| gbits minor
    let o2 := wrap32 (o1 <<< 8) ||| gbits micro
    let o3 := wrap32 (o2 <<< 8) ||| gbits nano
    sext64 o3
  else 0

/-- Modelled from the spec's words, for comparison with the code (claim C2):
"up to four dot-separated integer components (each implicitly truncated to
8 bits) ... packed most-significant-first into a 64-bit value", with fewer
than two components yielding ordinal 0. -/
def parse_version_spec (s : String) : Nat :=
  let comps := sscanf4 s
  if comps.length < 2 then 0
  else
    let t : Nat → Nat := fun i => ((comps.getD i 0) % (256 : Int)).toNat
    t 0 * 2 ^ 24 + t 1 * 2 ^ 16 + t 2 * 2 ^ 8 + t 3

/-! ### `preset_merge` (gstpreset.c:273-318)

Overlays the `user` key file onto `system`, following the C statement order
exactly: the user's file comment is copied first (if present); then for each
user group, its group comment is copied (before the privacy test!), private
groups are skipped, an existing same-named system group is removed, and the
user group's keys are copied one by one, each preceded by an attempted
key-comment copy. -/

/-- The body of the key-copy loop of `preset_merge`: attempted key-comment
copy (a silent no-op while the key does not yet exist), then the value
copy. -/
def copyKeyStep (usr : KeyFile) (gname : String) (a : KeyFile) (k : String) : KeyFile :=
  let a1 :=
    match getKeyComment usr gname k with
    | some c => setKeyComment a gname k c
    | none => a
  setValue a1 gname k ((getValue usr gname k).getD (""))

def mergeStep (usr : KeyFile) (acc : KeyFile) (gname : String) : KeyFile :=
  let acc1 :=
    match getGroupComment usr gname with
    | some c => setGroupComment acc gname c
    | none => acc
  if isPrivateName gname then acc1
  else
    let acc2 := if hasGroup acc1 gname then removeGroup acc1 gname else acc1
    (getKeys usr gname).foldl (copyKeyStep usr gname) acc2

def preset_merge (system usr : KeyFile) : KeyFile :=
  let sys1 :=
    match usr.fileComment with
    | some c => { system with fileComment := some c }
    | none => system
  (getGroups usr).foldl (mergeStep usr) sys1

/-! ### `gst_preset_default_save_presets_file` (gstpreset.c:567-644)

Filesystem and serialization outcomes are oracle inputs.  The function
records which backup-rotation actions were attempted, the document that was
written (if any), and the in-memory document after the call.  The
`no_presets` branch (which unlinks the user file) is reachable only when
`preset_get_keyfile` returns `NULL`, which `preset_get_keyfile_build` below
never produces. -/

structure SaveEnv where
  bakExists : Bool
  unlinkBakOk : Bool
  renameOk : Bool
  toDataOk : Bool
  writeOk : Bool
deriving DecidableEq

structure SaveResult where
  ok : Bool
  doc : Option KeyFile
  wrote : Option KeyFile
  attemptedUnlinkBak : Bool
  attemptedRename : Bool
  unlinkedUserPath : Bool
deriving DecidableEq

/-- Header-version stamping, `g_key_file_set_string (presets, PRESET_HEADER,
PRESET_HEADER_VERSION, PACKAGE_VERSION)`. -/
def stampVersion (kf : KeyFile) (pkg : String) : KeyFile :=
  setValue kf PRESET_HEADER PRESET_HEADER_VERSION pkg

def save_presets_core (kf : KeyFile) (env : SaveEnv) (pkg : String) : SaveResult :=
  let attemptedUnlink := env.bakExists
  let backup := !(env.bakExists && !env.unlinkBakOk)
  let kf1 := stampVersion kf pkg
  if !env.toDataOk then
    ⟨false, some kf1, none, attemptedUnlink, backup, false⟩
  else if !env.writeOk then
    ⟨false, some kf1, none, attemptedUnlink, backup, false⟩
  else
    ⟨true, some kf1, some kf1, attemptedUnlink, backup, false⟩

def gst_preset_default_save_presets_file (presets : Option KeyFile) (env : SaveEnv)
    (pkg : String) : SaveResult :=
  match presets with
  | none => ⟨false, none, none, false, false, true⟩
  | some kf => save_presets_core kf env pkg

/-! ### `preset_get_keyfile` (gstpreset.c:323-385), uncached branch

The two layers arrive as optional (key file, header version string) pairs —
`none` models any load failure (missing file, parse error, name mismatch).
When both are present the C code passes both version strings through
`preset_parse_version`; an absent header version would make the C
dereference `NULL` inside `sscanf`, so the model takes the version strings
as present. -/

def preset_get_keyfile_resolve (sys usr : Option (KeyFile × String))
    (identity : String) : KeyFile × Bool :=
  match sys, usr with
  | some (ks, _), none => (ks, false)
  | some (ks, vs), some (ku, vu) =>
    if preset_parse_version vs > preset_parse_version vu then
      (preset_merge ks ku, true)
    else (ku, false)
  | none, some (ku, _) => (ku, false)
  | none, none =>
    (setValue emptyKeyFile PRESET_HEADER PRESET_HEADER_ELEMENT_NAME identity, false)

/-- The full build: resolve, and when `updated_from_system` perform the
immediate re-save.  Returns the cached document and whether the re-save was
invoked. -/
def preset_get_keyfile_build (sys usr : Option (KeyFile × String)) (identity : String)
    (env : SaveEnv) (pkg : String) : KeyFile × Bool :=
  let r := preset_get_keyfile_resolve sys usr identity
  if r.2 then
    (((gst_preset_default_save_presets_file (some r.1) env pkg).doc).getD r.1, true)
  else (r.1, false)

/-! ### `gst_preset_default_get_preset_names` (gstpreset.c:388-432)

The C removes private names from the group array in place: on a removal it
decrements `num_groups`, moves the last element into the freed slot, and —
without re-examining that slot — lets the `for` loop increment `i`.  The
index arithmetic is mirrored exactly on a `List String`. -/

def listGet (l : List String) (i : Nat) : String := l.getD i ("")

def listSet : List String → Nat → String → List String
  | [], _, _ => []
  | _ :: xs, 0, v => v :: xs
  | x :: xs, Nat.succ n, v => x :: listSet xs n v

/-- The loop body, with the explicit iteration budget `num - i` as
structural fuel (each iteration increments `i` and never increases `num`,
so the budget strictly decreases; the loop itself exits once `i ≥ num`). -/
def filterPrivateLoopFuel : Nat → List String → Nat → Nat → List String × Nat
  | 0, groups, _, num => (groups, num)
  | Nat.succ fuel, groups, i, num =>
    if i < num then
      if isPrivateName (listGet groups i) then
        let num1 := num - 1
        let groups1 := listSet (listSet groups i (listGet groups num1)) num1 ("")
        filterPrivateLoopFuel fuel groups1 (i + 1) num1
      else filterPrivateLoopFuel fuel groups (i + 1) num
    else (groups, num)

def filterPrivateLoop (groups : List String) (i num : Nat) : List String × Nat :=
  filterPrivateLoopFuel (num - i) groups i num

/-- `strcmp`-ascending ordering on strings (UTF-8 byte order coincides with
code-point order). -/
def lexLe : List Char → List Char → Bool
  | [], _ => true
  | _ :: _, [] => false
  | a :: as, b :: bs => if a < b then true else if b < a then false else lexLe as bs

def strLe (a b : String) : Bool := lexLe a.data b.data

def insertSorted (x : String) : List String → List String
  | [] => [x]
  | y :: ys => if strLe x y then x :: y :: ys else y :: insertSorted x ys

/-- `g_qsort_with_data (..., strcmp, ...)`. -/
def sortNames : List String → List String
  | [] => []
  | x :: xs => insertSorted x (sortNames xs)

def gst_preset_default_get_preset_names (kf : KeyFile) : List String :=
  let groups := getGroups kf
  let fl := filterPrivateLoop groups 0 groups.length
  sortNames (fl.1.take fl.2)

/-! ### `gst_preset_default_load_preset` (gstpreset.c:479-563)

`props` is the result of `gst_preset_get_property_names` (`none` models the
`NULL` return of the default implementation when the class exposes no
properties at all).  `classHas` models `g_object_class_find_property`;
`deserializeOk` models `gst_value_deserialize` on (property, stored text).
The returned `ok` list records the properties actually set on the object. -/

inductive LoadResult where
  | ok (sets : List (String × String))
  | notFound
  | noProperties
deriving DecidableEq

def LoadResult.isSuccess : LoadResult → Bool
  | .ok _ => true
  | _ => false

def LoadResult.isNotFound : LoadResult → Bool
  | .notFound => true
  | _ => false

def gst_preset_default_load_preset (kf : KeyFile) (name : String)
    (props : Option (List String)) (classHas : String → Bool)
    (deserializeOk : String → String → Bool) : LoadResult :=
  if !hasGroup kf name then .notFound
  else
    match props with
    | none => .noProperties
    | some ps =>
      .ok (ps.foldl
        (fun acc p =>
          match getValue kf name p with
          | none => acc
          | some str =>
            if !classHas p then acc
            else if deserializeOk p str then acc ++ [(p, str)]
            else acc)
        [])

/-! ### `gst_preset_default_rename_preset` (gstpreset.c:716-770) -/

def gst_preset_default_rename_preset (kf : KeyFile) (old_name new_name : String)
    (env : SaveEnv) (pkg : String) : Bool × KeyFile :=
  if !hasGroup kf old_name then (false, kf)
  else
    let kf1 :=
      match getGroupComment kf old_name with
      | some c => setGroupComment kf new_name c
      | none => kf
    let kf2 := (getKeys kf1 old_name).foldl
      (fun a k =>
        let a1 :=
          match getKeyComment a old_name k with
          | some c => setKeyComment a new_name k c
          | none => a
        setValue a1 new_name k ((getValue a1 old_name k).getD ("")))
      kf1
    let kf3 := removeGroup kf2 old_name
    let r := save_presets_core kf3 env pkg
    (r.ok, (r.doc).getD kf3)

/-! ### `gst_preset_default_set_meta` / `_get_meta` (gstpreset.c:805-860)

The C `get_meta` returns `TRUE` unconditionally on this path (the keyfile is
always available); absence of group or key surfaces only as a `NULL`
`*value`, here `none`. -/

def gst_preset_default_set_meta (kf : KeyFile) (name tag : String)
    (value : Option String) (env : SaveEnv) (pkg : String) : Bool × KeyFile :=
  let key := ("_meta/") ++ tag
  let kf1 :=
    match value with
    | some v => if v ≠ "" then setValue kf name key v else removeKey kf name key
    | none => removeKey kf name key
  let r := save_presets_core kf1 env pkg
  (r.ok, (r.doc).getD kf1)

def gst_preset_default_get_meta (kf : KeyFile) (name tag : String) : Option String :=
  getValue kf name (("_meta/") ++ tag)

/-! ### Concrete inputs used by counterexamples and witnesses -/

def envAllOk : SaveEnv := ⟨false, true, true, true, true⟩

def envNoToData : SaveEnv := ⟨false, true, true, false, true⟩

def envBakStuck : SaveEnv := ⟨true, false, true, true, true⟩

def classHasAll : String → Bool := fun _ => true

def deserializeAll : String → String → Bool := fun _ _ => true

def headerOnlyDoc : KeyFile :=
  ⟨none, [⟨PRESET_HEADER, none, [⟨PRESET_HEADER_ELEMENT_NAME, none, "GstFakeElem"⟩,
    ⟨PRESET_HEADER_VERSION, none, "0.1"⟩]⟩]⟩

def sysDocC3 : KeyFile :=
  ⟨none, [⟨PRESET_HEADER, some "system header comment", [⟨PRESET_HEADER_ELEMENT_NAME, none, "GstFakeElem"⟩]⟩,
    ⟨"A", some "system A comment", [⟨"x", none, "sys-x"⟩, ⟨"y", none, "sys-y"⟩]⟩]⟩

def usrDocC3 : KeyFile :=
  ⟨none, [⟨PRESET_HEADER, some "user header comment", [⟨PRESET_HEADER_ELEMENT_NAME, none, "GstFakeElem"⟩]⟩,
    ⟨"A", some "user A comment", [⟨"x", some "user x comment", "usr-x"⟩]⟩]⟩

def docC6 : KeyFile := ⟨none, [⟨"p", none, [⟨"x", none, "1"⟩]⟩]⟩

def docC8 : KeyFile :=
  ⟨none, [⟨"A", none, [⟨"x", none, "1"⟩]⟩, ⟨PRESET_HEADER, none, []⟩, ⟨"_scratch", none, []⟩]⟩

def docC10 : KeyFile :=
  ⟨none, [⟨PRESET_HEADER, none, [⟨PRESET_HEADER_ELEMENT_NAME, none, "GstFakeElem"⟩]⟩,
    ⟨"A", some "a preset", [⟨"x", some "x comment", "1"⟩, ⟨"y", none, "2"⟩]⟩]⟩

/-! ## Helper lemmas: first-match update/lookup plumbing -/

theorem find?_updateGroup_ne (l : List KFGroup) (g g' : String) (f : KFGroup → KFGroup)
    (hf : ∀ gr, (f gr).name = gr.name) (hne : g' ≠ g) :
    (updateGroup l g f).find? (fun gr => gr.name == g') =
      l.find? (fun gr => gr.name == g') := by
  induction l with
  | nil => rfl
  | cons gr rest ih =>
    cases hg : (gr.name == g) with
    | true =>
      have hgr : gr.name = g := by simpa using hg
      have h2 : ((f gr).name == g') = false := by simp [hf gr, hgr, Ne.symm hne]
      have h3 : (gr.name == g') = false := by simp [hgr, Ne.symm hne]
      simp [updateGroup, hg, List.find?, h2, h3]
    | false =>
      cases hg' : (gr.name == g') with
      | true => simp [updateGroup, hg, List.find?, hg']
      | false => simp [updateGroup, hg, List.find?, hg', ih]

theorem find?_updateGroup_self (l : List KFGroup) (g : String) (f : KFGroup → KFGroup)
    (gr0 : KFGroup) (hf : (f gr0).name = gr0.name)
    (hfind : l.find? (fun gr => gr.name == g) = some gr0) :
    (updateGroup l g f).find? (fun gr => gr.name == g) = some (f gr0) := by
  induction l with
  | nil => simp [List.find?] at hfind
  | cons gr rest ih =>
    cases hg : (gr.name == g) with
    | true =>
      have h2 : gr = gr0 := by
        have h5 := hfind
        simp [List.find?, hg] at h5
        exact h5
      subst h2
      have hgr : gr.name = g := by simpa using hg
      have h3 : ((f gr).name == g) = true := by simp [hf, hgr]
      simp [updateGroup, hg, List.find?, h3]
    | false =>
      have h4 : rest.find? (fun gr => gr.name == g) = some gr0 := by
        have h5 := hfind
        simp [List.find?, hg] at h5
        exact h5
      simp [updateGroup, hg, List.find?, ih h4]

theorem updateGroup_of_find?_none (l : List KFGroup) (g : String) (f : KFGroup → KFGroup)
    (hfind : l.find? (fun gr => gr.name == g) = none) :
    updateGroup l g f = l := by
  induction l with
  | nil => rfl
  | cons gr rest ih =>
    cases hg : (gr.name == g) with
    | true => simp [List.find?, hg] at hfind
    | false =>
      have h4 : rest.find? (fun gr => gr.name == g) = none := by
        have h5 := hfind
        simp [List.find?, hg] at h5
        exact List.find?_eq_none.mpr (fun x hx => by simp [h5 x hx])
      simp [updateGroup, hg, ih h4]

theorem updateGroup_of_fix (l : List KFGroup) (g : String) (f : KFGroup → KFGroup)
    (gr0 : KFGroup) (hfind : l.find? (fun gr => gr.name == g) = some gr0)
    (hfx : f gr0 = gr0) :
    updateGroup l g f = l := by
  induction l with
  | nil => rfl
  | cons gr rest ih =>
    cases hg : (gr.name == g) with
    | true =>
      have h2 : gr = gr0 := by
        have h5 := hfind
        simp [List.find?, hg] at h5
        exact h5
      subst h2
      simp [updateGroup, hg, hfx]
    | false =>
      have h4 : rest.find? (fun gr => gr.name == g) = some gr0 := by
        have h5 := hfind
        simp [List.find?, hg] at h5
        exact h5
      simp [updateGroup, hg, ih h4]

theorem find?_filter_name_self (l : List KFGroup) (g : String) :
    (l.filter (fun gr => gr.name != g)).find? (fun gr => gr.name == g) = none := by
  induction l with
  | nil => rfl
  | cons gr rest ih =>
    cases hg : (gr.name == g) with
    | true =>
      have h3 : (gr.name != g) = false := by simp [bne, hg]
      simp [List.filter_cons, h3, ih]
    | false =>
      have h3 : (gr.name != g) = true := by simp [bne, hg]
      simp [List.filter_cons, h3, List.find?, hg, ih]

theorem find?_filter_name_ne (l : List KFGroup) (g g' : String) (hne : g' ≠ g) :
    (l.filter (fun gr => gr.name != g)).find? (fun gr => gr.name == g') =
      l.find? (fun gr => gr.name == g') := by
  induction l with
  | nil => rfl
  | cons gr rest ih =>
    cases hg : (gr.name == g) with
    | true =>
      have hgr : gr.name = g := by simpa using hg
      have h2 : (gr.name == g') = false := by simp [hgr, Ne.symm hne]
      have h3 : (gr.name != g) = false := by simp [bne, hg]
      simp [List.filter_cons, h3, List.find?, h2, ih]
    | false =>
      have h3 : (gr.name != g) = true := by simp [bne, hg]
      cases hg' : (gr.name == g') with
      | true => simp [List.filter_cons, h3, List.find?, hg']
      | false => simp [List.filter_cons, h3, List.find?, hg', ih]

theorem find?_append_none {α : Type} (p : α → Bool) (l1 l2 : List α)
    (h : l1.find? p = none) : (l1 ++ l2).find? p = l2.find? p := by
  induction l1 with
  | nil => rfl
  | cons a rest ih =>
    cases hp : p a with
    | true => simp [List.find?, hp] at h
    | false =>
      have h4 : rest.find? p = none := by
        have h5 := h
        simp [List.find?, hp] at h5
        exact List.find?_eq_none.mpr (fun x hx => by simp [h5 x hx])
      simp [List.find?, hp, ih h4]

theorem find?_append_some {α : Type} (p : α → Bool) (l1 l2 : List α) (a : α)
    (h : l1.find? p = some a) : (l1 ++ l2).find? p = some a := by
  induction l1 with
  | nil => simp [List.find?] at h
  | cons b rest ih =>
    cases hp : p b with
    | true =>
      have hb : b = a := by
        have h5 := h
        simp [List.find?, hp] at h5
        exact h5
      subst hb
      simp [List.find?, hp]
    | false =>
      have h4 : rest.find? p = some a := by
        have h5 := h
        simp [List.find?, hp] at h5
        exact h5
      simp [List.find?, hp, ih h4]

theorem find?_updateEntry_ne (l : List KeyEntry) (k k' : String) (f : KeyEntry → KeyEntry)
    (hf : ∀ e, (f e).key = e.key) (hne : k' ≠ k) :
    (updateEntry l k f).find? (fun e => e.key == k') = l.find? (fun e => e.key == k') := by
  induction l with
  | nil => rfl
  | cons e rest ih =>
    cases hk : (e.key == k) with
    | true =>
      have hek : e.key = k := by simpa using hk
      have h2 : ((f e).key == k') = false := by simp [hf e, hek, Ne.symm hne]
      have h3 : (e.key == k') = false := by simp [hek, Ne.symm hne]
      simp [updateEntry, hk, List.find?, h2, h3]
    | false =>
      cases hk' : (e.key == k') with
      | true => simp [updateEntry, hk, List.find?, hk']
      | false => simp [updateEntry, hk, List.find?, hk', ih]

theorem find?_updateEntry_self (l : List KeyEntry) (k : String) (f : KeyEntry → KeyEntry)
    (e0 : KeyEntry) (hf : (f e0).key = e0.key)
    (hfind : l.find? (fun e => e.key == k) = some e0) :
    (updateEntry l k f).find? (fun e => e.key == k) = some (f e0) := by
  induction l with
  | nil => simp [List.find?] at hfind
  | cons e rest ih =>
    cases hk : (e.key == k) with
    | true =>
      have h2 : e = e0 := by
        have h5 := hfind
        simp [List.find?, hk] at h5
        exact h5
      subst h2
      have hek : e.key = k := by simpa using hk
      have h3 : ((f e).key == k) = true := by simp [hf, hek]
      simp [updateEntry, hk, List.find?, h3]
    | false =>
      have h4 : rest.find? (fun e => e.key == k) = some e0 := by
        have h5 := hfind
        simp [List.find?, hk] at h5
        exact h5
      simp [updateEntry, hk, List.find?, ih h4]

theorem find?_filter_key_self (l : List KeyEntry) (k : String) :
    (l.filter (fun e => e.key != k)).find? (fun e => e.key == k) = none := by
  induction l with
  | nil => rfl
  | cons e rest ih =>
    cases hk : (e.key == k) with
    | true =>
      have h3 : (e.key != k) = false := by simp [bne, hk]
      simp [List.filter_cons, h3, ih]
    | false =>
      have h3 : (e.key != k) = true := by simp [bne, hk]
      simp [List.filter_cons, h3, List.find?, hk, ih]

/-! ## Helper lemmas: key-file operations -/

theorem lookupGroup_setGroupComment_ne (kf : KeyFile) (g g' c : String) (hne : g' ≠ g) :
    lookupGroup (setGroupComment kf g c) g' = lookupGroup kf g' := by
  unfold setGroupComment lookupGroup
  exact find?_updateGroup_ne _ _ _ _ (fun gr => rfl) hne

theorem lookupGroup_setGroupComment_self (kf : KeyFile) (g c : String) (gr0 : KFGroup)
    (h : lookupGroup kf g = some gr0) :
    lookupGroup (setGroupComment kf g c) g = some { gr0 with comment := some c } := by
  unfold setGroupComment lookupGroup
  exact find?_updateGroup_self _ _ _ _ rfl h

theorem lookupGroup_setKeyComment_ne (kf : KeyFile) (g g' k c : String) (hne : g' ≠ g) :
    lookupGroup (setKeyComment kf g k c) g' = lookupGroup kf g' := by
  unfold setKeyComment lookupGroup
  refine find?_updateGroup_ne _ _ _ _ (fun gr => ?_) hne
  by_cases h : gr.hasKey k = true
  · simp [h]
  · simp [h]

theorem lookupGroup_removeGroup_ne (kf : KeyFile) (g g' : String) (hne : g' ≠ g) :
    lookupGroup (removeGroup kf g) g' = lookupGroup kf g' := by
  unfold removeGroup lookupGroup
  exact find?_filter_name_ne _ _ _ hne

theorem lookupGroup_removeGroup_self (kf : KeyFile) (g : String) :
    lookupGroup (removeGroup kf g) g = none := by
  unfold removeGroup lookupGroup
  exact find?_filter_name_self _ _

theorem lookupGroup_setValue_ne (kf : KeyFile) (g g' k v : String) (hne : g' ≠ g) :
    lookupGroup (setValue kf g k v) g' = lookupGroup kf g' := by
  unfold setValue
  by_cases h : hasGroup kf g = true
  · simp only [h, if_true]
    unfold lookupGroup
    refine find?_updateGroup_ne _ _ _ _ (fun gr => ?_) hne
    unfold KFGroup.setEntryValue
    by_cases h2 : gr.hasKey k = true
    · simp [h2]
    · simp [h2]
  · rw [if_neg (by simp [h])]
    unfold lookupGroup
    cases hfq : kf.groups.find? (fun gr => gr.name == g') with
    | some a => rw [find?_append_some _ _ _ _ hfq]
    | none =>
      rw [find?_append_none _ _ _ hfq]
      have hgg : (g == g') = false := by simp [Ne.symm hne]
      simp [List.find?, hgg]

theorem lookupGroup_removeKey_ne (kf : KeyFile) (g g' k : String) (hne : g' ≠ g) :
    lookupGroup (removeKey kf g k) g' = lookupGroup kf g' := by
  unfold removeKey lookupGroup
  exact find?_updateGroup_ne _ _ _ _ (fun gr => rfl) hne

theorem name_setEntryValue (gr : KFGroup) (k v : String) :
    (gr.setEntryValue k v).name = gr.name := by
  unfold KFGroup.setEntryValue
  by_cases h : gr.hasKey k = true
  · simp [h]
  · simp [h]

theorem lookupGroup_setValue_self_new (kf : KeyFile) (g k v : String)
    (h : hasGroup kf g = false) :
    lookupGroup (setValue kf g k v) g = some ⟨g, none, [⟨k, none, v⟩]⟩ := by
  unfold setValue
  rw [if_neg (by simp [h])]
  unfold lookupGroup
  have hfq : kf.groups.find? (fun gr => gr.name == g) = none := by
    have := h
    unfold hasGroup lookupGroup at this
    exact Option.not_isSome_iff_eq_none.mp (by simp [this])
  rw [find?_append_none _ _ _ hfq]
  simp [List.find?]

theorem lookupGroup_setValue_self_upd (kf : KeyFile) (g k v : String) (gr0 : KFGroup)
    (h : lookupGroup kf g = some gr0) :
    lookupGroup (setValue kf g k v) g = some (gr0.setEntryValue k v) := by
  unfold setValue
  rw [if_pos (by unfold hasGroup; simp [h])]
  unfold lookupGroup
  exact find?_updateGroup_self _ _ _ _ (name_setEntryValue _ _ _) h

theorem value_setEntryValue_self (gr : KFGroup) (k v : String) :
    ((gr.setEntryValue k v).lookupEntry k).map (fun e => e.value) = some v := by
  unfold KFGroup.setEntryValue
  by_cases h : gr.hasKey k = true
  · rw [if_pos h]
    unfold KFGroup.hasKey at h
    cases hfq : gr.lookupEntry k with
    | none => rw [hfq] at h; simp at h
    | some e0 =>
      unfold KFGroup.lookupEntry at hfq ⊢
      rw [find?_updateEntry_self _ _ _ e0 rfl hfq]
      rfl
  · rw [if_neg h]
    unfold KFGroup.lookupEntry
    have hfq : gr.entries.find? (fun e => e.key == k) = none := by
      unfold KFGroup.hasKey KFGroup.lookupEntry at h
      simp at h
      exact List.find?_eq_none.mpr (fun x hx => by simp [h x hx])
    rw [find?_append_none _ _ _ hfq]
    simp [List.find?]

theorem lookupEntry_setEntryValue_ne (gr : KFGroup) (k k' v : String) (hne : k' ≠ k) :
    (gr.setEntryValue k v).lookupEntry k' = gr.lookupEntry k' := by
  unfold KFGroup.setEntryValue
  by_cases h : gr.hasKey k = true
  · rw [if_pos h]
    unfold KFGroup.lookupEntry
    exact find?_updateEntry_ne _ _ _ _ (fun e => rfl) hne
  · rw [if_neg h]
    unfold KFGroup.lookupEntry
    cases hfq : gr.entries.find? (fun e => e.key == k') with
    | some a => rw [find?_append_some _ _ _ _ hfq]
    | none =>
      rw [find?_append_none _ _ _ hfq]
      have hkk : (k == k') = false := by simp [Ne.symm hne]
      simp [List.find?, hkk]

theorem getValue_setValue_self (kf : KeyFile) (g k v : String) :
    getValue (setValue kf g k v) g k = some v := by
  cases hl : lookupGroup kf g with
  | some gr0 =>
    unfold getValue
    rw [lookupGroup_setValue_self_upd _ _ _ _ _ hl]
    simpa using value_setEntryValue_self gr0 k v
  | none =>
    unfold getValue
    rw [lookupGroup_setValue_self_new _ _ _ _ (by unfold hasGroup; simp [hl])]
    simp [KFGroup.lookupEntry, List.find?]

theorem getValue_setValue_ne (kf : KeyFile) (g k v g' k' : String)
    (h : g' ≠ g ∨ k' ≠ k) :
    getValue (setValue kf g k v) g' k' = getValue kf g' k' := by
  by_cases hg : g' = g
  · subst hg
    have hk : k' ≠ k := by
      cases h with
      | inl hh => exact absurd rfl hh
      | inr hh => exact hh
    cases hl : lookupGroup kf g' with
    | some gr0 =>
      unfold getValue
      rw [lookupGroup_setValue_self_upd _ _ _ _ _ hl, hl]
      simp [lookupEntry_setEntryValue_ne _ _ _ _ hk]
    | none =>
      unfold getValue
      rw [lookupGroup_setValue_self_new _ _ _ _ (by unfold hasGroup; simp [hl]), hl]
      have hkk : (k == k') = false := by simp [Ne.symm hk]
      simp [KFGroup.lookupEntry, List.find?, hkk]
  · unfold getValue
    rw [lookupGroup_setValue_ne _ _ _ _ _ hg]

theorem getValue_setGroupComment (kf : KeyFile) (g c g' k : String) :
    getValue (setGroupComment kf g c) g' k = getValue kf g' k := by
  by_cases hg : g' = g
  · subst hg
    cases hl : lookupGroup kf g' with
    | some gr0 =>
      unfold getValue
      rw [lookupGroup_setGroupComment_self _ _ _ _ hl, hl]
      simp [KFGroup.lookupEntry]
    | none =>
      have hnoop : updateGroup kf.groups g' (fun gr => { gr with comment := some c }) =
          kf.groups := by
        unfold lookupGroup at hl
        exact updateGroup_of_find?_none _ _ _ hl
      unfold getValue setGroupComment lookupGroup
      rw [hnoop]
  · unfold getValue
    rw [lookupGroup_setGroupComment_ne _ _ _ _ hg]

theorem setKeyComment_entry_fun_value (gr : KFGroup) (k c k' : String) :
    (((if gr.hasKey k then
        { gr with entries := updateEntry gr.entries k (fun e => { e with comment := some c }) }
      else gr) : KFGroup).lookupEntry k').map (fun e => e.value) =
      (gr.lookupEntry k').map (fun e => e.value) := by
  by_cases h : gr.hasKey k = true
  · rw [if_pos h]
    by_cases hk : k' = k
    · subst hk
      unfold KFGroup.hasKey at h
      cases hfq : gr.lookupEntry k' with
      | none => rw [hfq] at h; simp at h
      | some e0 =>
        unfold KFGroup.lookupEntry at hfq ⊢
        simp only
        rw [find?_updateEntry_self _ _ _ e0 rfl hfq]
        rfl
    · unfold KFGroup.lookupEntry
      simp only
      have hfr := find?_updateEntry_ne gr.entries k k'
        (fun e => { e with comment := some c }) (fun e => rfl) hk
      rw [hfr]
  · rw [if_neg h]

theorem getValue_setKeyComment (kf : KeyFile) (g k c g' k' : String) :
    getValue (setKeyComment kf g k c) g' k' = getValue kf g' k' := by
  by_cases hg : g' = g
  · subst hg
    cases hl : lookupGroup kf g' with
    | some gr0 =>
      unfold getValue setKeyComment lookupGroup
      unfold lookupGroup at hl
      rw [find?_updateGroup_self _ _ _ gr0
        (by by_cases h : gr0.hasKey k = true
            · simp [h]
            · simp [h]) hl]
      rw [hl]
      have := setKeyComment_entry_fun_value gr0 k c k'
      simpa using this
    | none =>
      have hnoop : updateGroup kf.groups g'
          (fun gr =>
            if gr.hasKey k then
              { gr with entries := updateEntry gr.entries k (fun e => { e with comment := some c }) }
            else gr) = kf.groups := by
        unfold lookupGroup at hl
        exact updateGroup_of_find?_none _ _ _ hl
      unfold getValue setKeyComment lookupGroup
      rw [hnoop]
  · unfold getValue
    rw [lookupGroup_setKeyComment_ne _ _ _ _ _ hg]

theorem hasGroup_setValue_ne (kf : KeyFile) (g k v g' : String) (hne : g' ≠ g) :
    hasGroup (setValue kf g k v) g' = hasGroup kf g' := by
  unfold hasGroup
  rw [lookupGroup_setValue_ne _ _ _ _ _ hne]

theorem hasGroup_removeGroup_self (kf : KeyFile) (g : String) :
    hasGroup (removeGroup kf g) g = false := by
  unfold hasGroup
  rw [lookupGroup_removeGroup_self]
  rfl

theorem hasGroup_setGroupComment (kf : KeyFile) (g c g' : String) :
    hasGroup (setGroupComment kf g c) g' = hasGroup kf g' := by
  by_cases hg : g' = g
  · subst hg
    cases hl : lookupGroup kf g' with
    | some gr0 =>
      unfold hasGroup
      rw [lookupGroup_setGroupComment_self _ _ _ _ hl, hl]
      rfl
    | none =>
      have hnoop : updateGroup kf.groups g' (fun gr => { gr with comment := some c }) =
          kf.groups := by
        unfold lookupGroup at hl
        exact updateGroup_of_find?_none _ _ _ hl
      unfold hasGroup setGroupComment lookupGroup
      rw [hnoop]
  · unfold hasGroup
    rw [lookupGroup_setGroupComment_ne _ _ _ _ hg]

theorem getValue_removeKey_self (kf : KeyFile) (g k : String) :
    getValue (removeKey kf g k) g k = none := by
  cases hl : lookupGroup kf g with
  | some gr0 =>
    unfold getValue removeKey lookupGroup
    unfold lookupGroup at hl
    rw [find?_updateGroup_self _ _ _ gr0 rfl hl]
    simp only [Option.some_bind]
    unfold KFGroup.lookupEntry
    simp only
    rw [find?_filter_key_self]
    rfl
  | none =>
    have hnoop : updateGroup kf.groups g
        (fun gr => { gr with entries := gr.entries.filter (fun e => e.key != k) }) =
        kf.groups := by
      unfold lookupGroup at hl
      exact updateGroup_of_find?_none _ _ _ hl
    unfold getValue removeKey lookupGroup
    rw [hnoop]
    unfold lookupGroup at hl
    rw [hl]
    rfl

/-! ## Helper lemmas: arithmetic of the version pack -/

theorem shiftLeft_lor_eq_add (a b k : Nat) (hb : b < 2 ^ k) :
    (a <<< k) ||| b = a <<< k + b := by
  apply Nat.eq_of_testBit_eq
  intro j
  rw [Nat.testBit_lor]
  have h2 : a <<< k + b = 2 ^ k * a + b := by rw [Nat.shiftLeft_eq, Nat.mul_comm]
  by_cases hj : j < k
  · have h1 : (a <<< k).testBit j = false := by
      rw [Nat.testBit_shiftLeft]
      simp [Nat.not_le.mpr hj]
    rw [h2, Nat.testBit_mul_pow_two_add a hb j, if_pos hj, h1]
    simp
  · have h1 : (a <<< k).testBit j = a.testBit (j - k) := by
      rw [Nat.testBit_shiftLeft]
      simp [Nat.not_lt.mp hj]
    have hbj : b.testBit j = false :=
      Nat.testBit_lt_two_pow
        (Nat.lt_of_lt_of_le hb (Nat.pow_le_pow_right (by omega) (Nat.not_lt.mp hj)))
    rw [h2, Nat.testBit_mul_pow_two_add a hb j, if_neg hj, h1, hbj]
    simp

theorem gbits_small (z : Int) (h0 : 0 ≤ z) (h1 : z ≤ 255) : gbits z = z.toNat := by
  unfold gbits
  rw [Int.emod_eq_of_lt h0 (by omega)]

theorem pack_small (a b c d : Nat) (ha : a ≤ 127) (hb : b ≤ 255) (hc : c ≤ 255)
    (hd : d ≤ 255) :
    sext64 (wrap32 ((wrap32 ((wrap32 (a <<< 8) ||| b) <<< 8) ||| c) <<< 8) ||| d) =
      a * 2 ^ 24 + b * 2 ^ 16 + c * 2 ^ 8 + d := by
  have p8 : (2 : Nat) ^ 8 = 256 := by norm_num
  have p32 : (2 : Nat) ^ 32 = 4294967296 := by norm_num
  have w1 : wrap32 (a <<< 8) = a <<< 8 := by
    unfold wrap32
    rw [Nat.shiftLeft_eq, p8]
    exact Nat.mod_eq_of_lt (by omega)
  have o1 : wrap32 (a <<< 8) ||| b = a * 256 + b := by
    rw [w1, shiftLeft_lor_eq_add a b 8 (by omega), Nat.shiftLeft_eq, p8]
  have w2 : wrap32 ((a * 256 + b) <<< 8) = (a * 256 + b) <<< 8 := by
    unfold wrap32
    rw [Nat.shiftLeft_eq, p8]
    exact Nat.mod_eq_of_lt (by omega)
  have o2 : wrap32 ((a * 256 + b) <<< 8) ||| c = (a * 256 + b) * 256 + c := by
    rw [w2, shiftLeft_lor_eq_add _ c 8 (by omega), Nat.shiftLeft_eq, p8]
  have w3 : wrap32 (((a * 256 + b) * 256 + c) <<< 8) = ((a * 256 + b) * 256 + c) <<< 8 := by
    unfold wrap32
    rw [Nat.shiftLeft_eq, p8]
    exact Nat.mod_eq_of_lt (by omega)
  have o3 : wrap32 (((a * 256 + b) * 256 + c) <<< 8) ||| d =
      ((a * 256 + b) * 256 + c) * 256 + d := by
    rw [w3, shiftLeft_lor_eq_add _ d 8 (by omega), Nat.shiftLeft_eq, p8]
  rw [o1, o2, o3]
  unfold sext64
  rw [if_pos (by omega)]
  have e24 : (2 : Nat) ^ 24 = 16777216 := by norm_num
  have e16 : (2 : Nat) ^ 16 = 65536 := by norm_num
  rw [e24, e16, p8]
  omega

theorem getD_bounds (l : List Int) (hl : ∀ x ∈ l, 0 ≤ x ∧ x ≤ 255) (i : Nat) :
    0 ≤ l.getD i 0 ∧ l.getD i 0 ≤ 255 := by
  induction l generalizing i with
  | nil => simp [List.getD]
  | cons x xs ih =>
    cases i with
    | zero => simpa using hl x (by simp)
    | succ n =>
      rw [List.getD_cons_succ]
      exact ih (fun y hy => hl y (by simp [hy])) n

/-! ## Helper lemmas: save/meta plumbing -/

theorem updateEntry_of_fix (l : List KeyEntry) (k : String) (f : KeyEntry → KeyEntry)
    (e0 : KeyEntry) (hfind : l.find? (fun e => e.key == k) = some e0)
    (hfx : f e0 = e0) :
    updateEntry l k f = l := by
  induction l with
  | nil => rfl
  | cons e rest ih =>
    cases hk : (e.key == k) with
    | true =>
      have h2 : e = e0 := by
        have h5 := hfind
        simp [List.find?, hk] at h5
        exact h5
      subst h2
      simp [updateEntry, hk, hfx]
    | false =>
      have h4 : rest.find? (fun e => e.key == k) = some e0 := by
        have h5 := hfind
        simp [List.find?, hk] at h5
        exact h5
      simp [updateEntry, hk, ih h4]

theorem setEntryValue_idem_of_value (gr : KFGroup) (k v : String) (e0 : KeyEntry)
    (hfind : gr.lookupEntry k = some e0) (hval : e0.value = v) :
    gr.setEntryValue k v = gr := by
  unfold KFGroup.setEntryValue
  rw [if_pos (by unfold KFGroup.hasKey; simp [hfind])]
  have hfx : ({ e0 with value := v } : KeyEntry) = e0 := by
    cases e0
    simp at hval
    simp [hval]
  unfold KFGroup.lookupEntry at hfind
  rw [updateEntry_of_fix _ _ _ e0 hfind hfx]

theorem setValue_of_fix (kf : KeyFile) (g k v : String) (gr0 : KFGroup)
    (hl : lookupGroup kf g = some gr0) (hfix : gr0.setEntryValue k v = gr0) :
    setValue kf g k v = kf := by
  unfold setValue
  rw [if_pos (by unfold hasGroup; simp [hl])]
  unfold lookupGroup at hl
  rw [updateGroup_of_fix _ _ _ gr0 hl hfix]

theorem setValue_idem (kf : KeyFile) (g k v : String) :
    setValue (setValue kf g k v) g k v = setValue kf g k v := by
  cases hl : lookupGroup kf g with
  | some gr0 =>
    have hl2 := lookupGroup_setValue_self_upd kf g k v gr0 hl
    have hval := value_setEntryValue_self gr0 k v
    cases hfe : (gr0.setEntryValue k v).lookupEntry k with
    | none => rw [hfe] at hval; simp at hval
    | some e1 =>
      rw [hfe] at hval
      simp at hval
      exact setValue_of_fix _ _ _ _ _ hl2 (setEntryValue_idem_of_value _ _ _ e1 hfe hval)
  | none =>
    have hl2 := lookupGroup_setValue_self_new kf g k v (by unfold hasGroup; simp [hl])
    exact setValue_of_fix _ _ _ _ _ hl2
      (setEntryValue_idem_of_value _ _ _ ⟨k, none, v⟩
        (by unfold KFGroup.lookupEntry; simp [List.find?]) rfl)

theorem getValue_of_hasGroup_false (kf : KeyFile) (g k : String)
    (h : hasGroup kf g = false) : getValue kf g k = none := by
  unfold getValue
  have h2 : lookupGroup kf g = none := by
    unfold hasGroup at h
    exact Option.not_isSome_iff_eq_none.mp (by simp [h])
  rw [h2]
  rfl

theorem save_core_doc (kf : KeyFile) (env : SaveEnv) (pkg : String) :
    (save_presets_core kf env pkg).doc = some (stampVersion kf pkg) := by
  obtain ⟨b1, b2, b3, b4, b5⟩ := env
  cases b4 <;> cases b5 <;> simp [save_presets_core]

theorem meta_key_ne_version (t : String) :
    (("_meta/") ++ t) ≠ PRESET_HEADER_VERSION := by
  intro h
  have h2 := congrArg (fun s => s.data.head?) h
  simp only [String.data_append] at h2
  have h3 : ((("_meta/").data) ++ t.data).head? = some '_' := rfl
  have h4 : (PRESET_HEADER_VERSION.data).head? = some 'v' := rfl
  rw [h3, h4] at h2
  exact absurd (Option.some.inj h2) (by decide)

/-! ## Claim theorems -/

/-- C1: when both the system and the user document load successfully, the
resolution of `preset_get_keyfile` is driven by the parsed version ordinals:
if the system ordinal is strictly greater, the resolved document is the
system document with the user document merged on top (`preset_merge`) and
the immediate re-save is triggered; otherwise the resolved document is the
user document verbatim (the system document contributes nothing) and no
re-save is triggered. -/
theorem c1_version_driven_resolution (ks ku : KeyFile) (vs vu identity pkg : String)
    (env : SaveEnv) :
    preset_get_keyfile_resolve (some (ks, vs)) (some (ku, vu)) identity =
      (if preset_parse_version vs > preset_parse_version vu then
        (preset_merge ks ku, true)
      else (ku, false)) ∧
    (preset_get_keyfile_build (some (ks, vs)) (some (ku, vu)) identity env pkg).2 =
      (if preset_parse_version vs > preset_parse_version vu then true else false) := by
  by_cases h : preset_parse_version vs > preset_parse_version vu
  · constructor
    · simp [preset_get_keyfile_resolve, h]
    · simp [preset_get_keyfile_build, preset_get_keyfile_resolve, h]
  · constructor
    · simp [preset_get_keyfile_resolve, h]
    · simp [preset_get_keyfile_build, preset_get_keyfile_resolve, h]

/-- C2 counterexample: the claim says each version component is "implicitly
truncated to 8 bits" before packing.  The code does no truncation: the
component `256` of `"0.256"` is OR-ed into the packed word after the shift,
yielding `16777216`, while the claimed truncating pack yields `0`. -/
theorem c2_counterexample :
    preset_parse_version ("0.256") = 16777216 ∧
    parse_version_spec ("0.256") = 0 ∧
    preset_parse_version ("0.256") ≠ parse_version_spec ("0.256") := by
  refine ⟨by decide, by decide, by decide⟩

/-- C2 (amended): parse returns ordinal 0 when fewer than two dot-separated
integer components are present; with at least two components it packs the
up-to-four components (missing ones defaulting to 0) most-significant-first
into the 64-bit value by shift-and-OR — WITHOUT truncating a component to
8 bits, so the packed form equals the byte-per-component value only when
every component fits its byte (each in `[0, 255]`, major in `[0, 127]` to
avoid the 32-bit sign extension).  Versions are ordered by plain integer
comparison of these packed values. -/
theorem c2_version_pack (s : String) (comps : List Int) (hc : sscanf4 s = comps) :
    (comps.length ≤ 1 → preset_parse_version s = 0) ∧
    (2 ≤ comps.length →
      (∀ x ∈ comps, 0 ≤ x ∧ x ≤ 255) →
      comps.getD 0 0 ≤ 127 →
      preset_parse_version s =
        (comps.getD 0 0).toNat * 2 ^ 24 + (comps.getD 1 0).toNat * 2 ^ 16 +
          (comps.getD 2 0).toNat * 2 ^ 8 + (comps.getD 3 0).toNat) := by
  constructor
  · intro hlen
    unfold preset_parse_version
    rw [hc]
    have hnot : ¬ (comps.length > 1) := by omega
    simp [hnot]
  · intro hlen hb hmaj
    have h0 := getD_bounds comps hb 0
    have h1 := getD_bounds comps hb 1
    have h2 := getD_bounds comps hb 2
    have h3 := getD_bounds comps hb 3
    unfold preset_parse_version
    rw [hc]
    rw [if_pos (by omega)]
    rw [gbits_small _ h0.1 h0.2, gbits_small _ h1.1 h1.2, gbits_small _ h2.1 h2.2,
      gbits_small _ h3.1 h3.2]
    exact pack_small _ _ _ _ (by omega) (by omega) (by omega) (by omega)

/-- C2 witness: the two parts of the amended statement evaluated at
concrete version strings. -/
theorem c2_version_pack_witness :
    preset_parse_version ("1x") = 0 ∧
    preset_parse_version ("1.2.3.4") = 16909060 := by
  constructor
  · exact (c2_version_pack ("1x") (sscanf4 ("1x")) rfl).1 (by decide)
  · have h := (c2_version_pack ("1.2.3.4") (sscanf4 ("1.2.3.4")) rfl).2
      (by decide) (by decide) (by decide)
    rw [h]
    decide

/-- C4 counterexample: the claim says a failed save leaves the in-memory
Document unchanged.  The code stamps the header `version` field before
serializing, so after a serialization failure the in-memory document
differs from the original (here its version changed from `"0.1"` to
`"0.10.30"`), even though the call correctly reports failure. -/
theorem c4_counterexample :
    (save_presets_core headerOnlyDoc envNoToData ("0.10.30")).ok = false ∧
    (save_presets_core headerOnlyDoc envNoToData ("0.10.30")).doc ≠ some headerOnlyDoc := by
  refine ⟨by decide, by decide⟩

/-- C4 (amended): if serialization to text or the final write fails, the
save call reports failure and nothing is written; the in-memory Document is
unchanged EXCEPT that its header `version` field has already been stamped
with the running system's version.  The stamp is idempotent, so a later
retry of the same save starts from exactly this stamped state (any further
save call leaves the document at the same stamped value). -/
theorem c4_failed_save_state (kf : KeyFile) (env env2 : SaveEnv) (pkg : String)
    (h : env.toDataOk = false ∨ env.writeOk = false) :
    (save_presets_core kf env pkg).ok = false ∧
    (save_presets_core kf env pkg).wrote = none ∧
    (save_presets_core kf env pkg).doc = some (stampVersion kf pkg) ∧
    (save_presets_core (stampVersion kf pkg) env2 pkg).doc = some (stampVersion kf pkg) := by
  have hidem : stampVersion (stampVersion kf pkg) pkg = stampVersion kf pkg := by
    unfold stampVersion
    exact setValue_idem _ _ _ _
  refine ⟨?_, ?_, ?_, ?_⟩
  · cases htd : env.toDataOk with
    | false => simp [save_presets_core, htd]
    | true =>
      have hw : env.writeOk = false := by
        cases h with
        | inl hh => rw [htd] at hh; exact absurd hh (by simp)
        | inr hh => exact hh
      simp [save_presets_core, htd, hw]
  · cases htd : env.toDataOk with
    | false => simp [save_presets_core, htd]
    | true =>
      have hw : env.writeOk = false := by
        cases h with
        | inl hh => rw [htd] at hh; exact absurd hh (by simp)
        | inr hh => exact hh
      simp [save_presets_core, htd, hw]
  · exact save_core_doc kf env pkg
  · rw [save_core_doc _ env2 pkg, hidem]

/-- C4 witness: the amended statement at a failing-serialization
environment with a concrete document. -/
theorem c4_failed_save_state_witness :
    (save_presets_core headerOnlyDoc envNoToData ("0.10.30")).ok = false ∧
    (save_presets_core headerOnlyDoc envNoToData ("0.10.30")).wrote = none ∧
    (save_presets_core headerOnlyDoc envNoToData ("0.10.30")).doc =
      some (stampVersion headerOnlyDoc ("0.10.30")) ∧
    (save_presets_core (stampVersion headerOnlyDoc ("0.10.30")) envAllOk ("0.10.30")).doc =
      some (stampVersion headerOnlyDoc ("0.10.30")) :=
  c4_failed_save_state headerOnlyDoc envNoToData envAllOk ("0.10.30") (Or.inl rfl)

/-- C5 counterexample: the claim says the rename of the user file to `.bak`
is attempted even when deleting the stale `.bak` failed.  In the code a
failed unlink clears the `backup` flag and the rename is skipped (while the
save itself still proceeds and succeeds). -/
theorem c5_counterexample :
    (save_presets_core headerOnlyDoc envBakStuck ("0.10.30")).attemptedUnlinkBak = true ∧
    (save_presets_core headerOnlyDoc envBakStuck ("0.10.30")).attemptedRename = false ∧
    (save_presets_core headerOnlyDoc envBakStuck ("0.10.30")).ok = true := by
  refine ⟨by decide, by decide, by decide⟩

/-- C5 (amended): on every persist the code first deletes a pre-existing
`.bak` file (tolerating failure), and then attempts the rename to `.bak`
ONLY when no stale `.bak` was present or its deletion succeeded — after a
failed deletion the rename is skipped.  No backup-rotation failure ever
affects the save result, which depends only on serialization and the final
write. -/
theorem c5_backup_rotation (kf : KeyFile) (env : SaveEnv) (pkg : String) :
    (save_presets_core kf env pkg).attemptedUnlinkBak = env.bakExists ∧
    (save_presets_core kf env pkg).attemptedRename =
      (!(env.bakExists && !env.unlinkBakOk)) ∧
    (save_presets_core kf env pkg).ok = (env.toDataOk && env.writeOk) := by
  obtain ⟨b1, b2, b3, b4, b5⟩ := env
  cases b4 <;> cases b5 <;> simp [save_presets_core]

/-- C6 counterexample: the claim says `load_preset` succeeds whenever the
group exists.  When the property-name list is absent (`NULL`, the default
implementation's result for a class with no properties at all) the call
fails even though the group exists. -/
theorem c6_counterexample :
    hasGroup docC6 ("p") = true ∧
    (gst_preset_default_load_preset docC6 ("p") none classHasAll deserializeAll).isSuccess
      = false := by
  refine ⟨by decide, by decide⟩

/-- C6 (amended): `load_preset` fails with `NotFound` exactly when the
group is absent.  When the group exists the call succeeds if and only if
the property-name list is available at all; per-property skips (missing
entry, property not found on the class, decode failure) never fail the
call.  When the group exists but no property names are available the call
fails with a different (`no properties`) error, not `NotFound`. -/
theorem c6_load_result (kf : KeyFile) (name : String) (props : Option (List String))
    (classHas : String → Bool) (dec : String → String → Bool) :
    ((gst_preset_default_load_preset kf name props classHas dec).isNotFound
        = !hasGroup kf name) ∧
    ((gst_preset_default_load_preset kf name props classHas dec).isSuccess
        = (hasGroup kf name && props.isSome)) := by
  cases hg : hasGroup kf name with
  | false =>
    simp [gst_preset_default_load_preset, hg, LoadResult.isNotFound, LoadResult.isSuccess]
  | true =>
    cases props with
    | none =>
      simp [gst_preset_default_load_preset, hg, LoadResult.isNotFound, LoadResult.isSuccess]
    | some ps =>
      simp [gst_preset_default_load_preset, hg, LoadResult.isNotFound, LoadResult.isSuccess]

/-- C7 counterexample: the claim says a persist on a Document with zero
preset groups deletes the user file instead of writing.  `headerOnlyDoc`
holds only the `_presets_` header (zero preset groups), yet the save
serializes and writes it and never unlinks the user path. -/
theorem c7_counterexample :
    (gst_preset_default_save_presets_file (some headerOnlyDoc) envAllOk
        ("0.10.30")).unlinkedUserPath = false ∧
    (gst_preset_default_save_presets_file (some headerOnlyDoc) envAllOk
        ("0.10.30")).wrote ≠ none ∧
    (gst_preset_default_save_presets_file (some headerOnlyDoc) envAllOk
        ("0.10.30")).ok = true := by
  refine ⟨by decide, by decide, by decide⟩

/-- C7 (amended): whenever a key file is available — and the build always
produces one, so this covers every reachable persist, in particular a
Document with zero preset groups — the save never deletes the user file;
it stamps the header version, serializes and writes the document, and
succeeds exactly when serialization and the write succeed.  The
file-deleting branch requires the key file lookup to fail, which the build
never produces. -/
theorem c7_save_never_deletes (kf : KeyFile) (env : SaveEnv) (pkg : String) :
    ((gst_preset_default_save_presets_file (some kf) env pkg).unlinkedUserPath = false) ∧
    ((gst_preset_default_save_presets_file (some kf) env pkg).wrote =
      (if env.toDataOk && env.writeOk then some (stampVersion kf pkg) else none)) ∧
    ((gst_preset_default_save_presets_file (some kf) env pkg).ok =
      (env.toDataOk && env.writeOk)) := by
  obtain ⟨b1, b2, b3, b4, b5⟩ := env
  cases b4 <;> cases b5 <;>
    simp [gst_preset_default_save_presets_file, save_presets_core]

/-- C9: `set_meta` with a present non-empty value stores the value under
`_meta/<tag>` in the named group (creating the group if needed); an empty
or absent value removes the key; `get_meta` returns the stored value, and
absence of the group or key yields `none` rather than an error — in
particular setting a meta value and then setting it to the empty string
makes `get_meta` return `none`. -/
theorem c9_meta_roundtrip (kf kf2 kf3 kf4 : KeyFile) (n t v pkg : String) (env : SaveEnv)
    (hv : v ≠ "") (hng : hasGroup kf4 n = false) :
    gst_preset_default_get_meta
        ((gst_preset_default_set_meta kf n t (some v) env pkg).2) n t = some v ∧
    gst_preset_default_get_meta
        ((gst_preset_default_set_meta kf2 n t (some ("")) env pkg).2) n t = none ∧
    gst_preset_default_get_meta
        ((gst_preset_default_set_meta kf3 n t none env pkg).2) n t = none ∧
    gst_preset_default_get_meta kf4 n t = none := by
  have hneq : (("_meta/") ++ t) ≠ PRESET_HEADER_VERSION := meta_key_ne_version t
  refine ⟨?_, ?_, ?_, ?_⟩
  · simp only [gst_preset_default_set_meta]
    rw [if_pos hv, save_core_doc]
    unfold gst_preset_default_get_meta stampVersion
    simp only [Option.getD_some]
    rw [getValue_setValue_ne _ _ _ _ _ _ (Or.inr hneq)]
    exact getValue_setValue_self _ _ _ _
  · simp only [gst_preset_default_set_meta]
    rw [if_neg (by simp), save_core_doc]
    unfold gst_preset_default_get_meta stampVersion
    simp only [Option.getD_some]
    rw [getValue_setValue_ne _ _ _ _ _ _ (Or.inr hneq)]
    exact getValue_removeKey_self _ _ _
  · simp only [gst_preset_default_set_meta]
    rw [save_core_doc]
    unfold gst_preset_default_get_meta stampVersion
    simp only [Option.getD_some]
    rw [getValue_setValue_ne _ _ _ _ _ _ (Or.inr hneq)]
    exact getValue_removeKey_self _ _ _
  · exact getValue_of_hasGroup_false _ _ _ hng

/-- C9 witness: the meta round trip evaluated on a concrete document
(set `"hi"`, clear with the empty string, read back absent). -/
theorem c9_meta_roundtrip_witness :
    gst_preset_default_get_meta
        ((gst_preset_default_set_meta docC10 ("A") ("comment") (some ("hi")) envAllOk
          ("0.10.30")).2) ("A") ("comment") = some ("hi") ∧
    gst_preset_default_get_meta
        ((gst_preset_default_set_meta docC10 ("A") ("comment") (some ("")) envAllOk
          ("0.10.30")).2) ("A") ("comment") = none ∧
    gst_preset_default_get_meta
        ((gst_preset_default_set_meta docC10 ("A") ("comment") none envAllOk
          ("0.10.30")).2) ("A") ("comment") = none ∧
    gst_preset_default_get_meta emptyKeyFile ("A") ("comment") = none :=
  c9_meta_roundtrip docC10 docC10 docC10 emptyKeyFile ("A") ("comment") ("hi")
    ("0.10.30") envAllOk (by decide) (by decide)

theorem save_core_ok (kf : KeyFile) (env : SaveEnv) (pkg : String) :
    (save_presets_core kf env pkg).ok = (env.toDataOk && env.writeOk) := by
  obtain ⟨b1, b2, b3, b4, b5⟩ := env
  cases b4 <;> cases b5 <;> simp [save_presets_core]

theorem load_preset_notFound (kf : KeyFile) (n : String) (props : Option (List String))
    (classHas : String → Bool) (dec : String → String → Bool)
    (h : hasGroup kf n = false) :
    gst_preset_default_load_preset kf n props classHas dec = LoadResult.notFound := by
  unfold gst_preset_default_load_preset
  rw [if_pos (by simp [h])]

/-- C8: the in-place removal of private names from the group array moves
the last element into the freed slot but the `for` loop never re-examines
that slot; with groups in order `A`, `_presets_`, `_scratch` the private
name `_scratch` is swapped into the already-visited slot 1 and survives,
so `get_preset_names` returns `["A", "_scratch"]` — the code contradicts
its own comment "remove all private group names starting with '_' from the
array" and the claim's (correct) `["A"]`. -/
theorem c8_private_name_survives :
    gst_preset_default_get_preset_names docC8 = [("A"), ("_scratch")] ∧
    isPrivateName ("_scratch") = true ∧
    gst_preset_default_get_preset_names docC8 ≠ [("A")] := by
  refine ⟨by decide, by decide, by decide⟩

/-- C10: renaming an existing preset to its own name reports success (the
save succeeds) but removes the preset entirely: the keys are copied onto
the same group and then that group is deleted, so the renamed-to document
no longer has the group and a subsequent `load_preset` of that name fails
with `NotFound`. -/
theorem c10_rename_to_self_deletes (kf : KeyFile) (name : String) (env : SaveEnv)
    (pkg : String) (h1 : hasGroup kf name = true) (h2 : isPrivateName name = false)
    (h3 : env.toDataOk = true) (h4 : env.writeOk = true) :
    (gst_preset_default_rename_preset kf name name env pkg).1 = true ∧
    hasGroup ((gst_preset_default_rename_preset kf name name env pkg).2) name = false ∧
    (∀ props classHas dec,
      gst_preset_default_load_preset
        ((gst_preset_default_rename_preset kf name name env pkg).2) name props classHas
        dec = LoadResult.notFound) := by
  have hne : name ≠ PRESET_HEADER := by
    intro he
    rw [he] at h2
    exact absurd h2 (by decide)
  have hg2 : ∀ kfx : KeyFile,
      hasGroup (stampVersion (removeGroup kfx name) pkg) name = false := by
    intro kfx
    unfold stampVersion
    rw [hasGroup_setValue_ne _ _ _ _ _ hne]
    exact hasGroup_removeGroup_self _ _
  refine ⟨?_, ?_, ?_⟩
  · simp only [gst_preset_default_rename_preset]
    rw [if_neg (by simp [h1])]
    simp only [save_core_ok, h3, h4]
    rfl
  · simp only [gst_preset_default_rename_preset]
    rw [if_neg (by simp [h1])]
    simp only [save_core_doc, Option.getD_some]
    exact hg2 _
  · intro props classHas dec
    apply load_preset_notFound
    simp only [gst_preset_default_rename_preset]
    rw [if_neg (by simp [h1])]
    simp only [save_core_doc, Option.getD_some]
    exact hg2 _

/-- C10 witness: renaming preset `A` of a concrete document to itself. -/
theorem c10_rename_to_self_deletes_witness :
    (gst_preset_default_rename_preset docC10 ("A") ("A") envAllOk ("0.10.30")).1 = true ∧
    hasGroup ((gst_preset_default_rename_preset docC10 ("A") ("A") envAllOk
      ("0.10.30")).2) ("A") = false ∧
    gst_preset_default_load_preset
      ((gst_preset_default_rename_preset docC10 ("A") ("A") envAllOk ("0.10.30")).2)
      ("A") (some [("x")]) classHasAll deserializeAll = LoadResult.notFound := by
  obtain ⟨ha, hb, hc⟩ := c10_rename_to_self_deletes docC10 ("A") envAllOk ("0.10.30")
    (by decide) (by decide) rfl rfl
  exact ⟨ha, hb, hc (some [("x")]) classHasAll deserializeAll⟩

/-! ## Helper lemmas: the merge overlay -/

theorem lookupGroup_fileComment (sys : KeyFile) (x : Option String) (g : String) :
    lookupGroup { sys with fileComment := x } g = lookupGroup sys g := rfl

theorem getValue_eq_of_lookup_eq (kf1 kf2 : KeyFile) (g k : String)
    (h : lookupGroup kf1 g = lookupGroup kf2 g) :
    getValue kf1 g k = getValue kf2 g k := by
  unfold getValue
  rw [h]

theorem getGroupComment_eq_of_lookup_eq (kf1 kf2 : KeyFile) (g : String)
    (h : lookupGroup kf1 g = lookupGroup kf2 g) :
    getGroupComment kf1 g = getGroupComment kf2 g := by
  unfold getGroupComment
  rw [h]

theorem getKeyComment_eq_of_lookup_eq (kf1 kf2 : KeyFile) (g k : String)
    (h : lookupGroup kf1 g = lookupGroup kf2 g) :
    getKeyComment kf1 g k = getKeyComment kf2 g k := by
  unfold getKeyComment
  rw [h]

theorem hasGroup_eq_of_lookup_eq (kf1 kf2 : KeyFile) (g : String)
    (h : lookupGroup kf1 g = lookupGroup kf2 g) :
    hasGroup kf1 g = hasGroup kf2 g := by
  unfold hasGroup
  rw [h]

theorem getGroupComment_setGroupComment_self (kf : KeyFile) (g c : String)
    (gr0 : KFGroup) (h : lookupGroup kf g = some gr0) :
    getGroupComment (setGroupComment kf g c) g = some c := by
  unfold getGroupComment
  rw [lookupGroup_setGroupComment_self _ _ _ _ h]
  rfl

theorem lookupGroup_copyKeyStep_ne (usr : KeyFile) (gname g' : String) (hne : g' ≠ gname)
    (a : KeyFile) (k : String) :
    lookupGroup (copyKeyStep usr gname a k) g' = lookupGroup a g' := by
  unfold copyKeyStep
  cases hc : getKeyComment usr gname k with
  | some c =>
    simp only [hc]
    rw [lookupGroup_setValue_ne _ _ _ _ _ hne, lookupGroup_setKeyComment_ne _ _ _ _ _ hne]
  | none =>
    simp only [hc]
    rw [lookupGroup_setValue_ne _ _ _ _ _ hne]

theorem lookupGroup_keysFold_ne (usr : KeyFile) (gname g' : String) (hne : g' ≠ gname)
    (ks : List String) (acc : KeyFile) :
    lookupGroup (ks.foldl (copyKeyStep usr gname) acc) g' = lookupGroup acc g' := by
  induction ks generalizing acc with
  | nil => rfl
  | cons k ks ih =>
    rw [List.foldl_cons, ih]
    exact lookupGroup_copyKeyStep_ne _ _ _ hne _ _

theorem lookupGroup_mergeStep_ne (usr acc : KeyFile) (gname g' : String)
    (hne : g' ≠ gname) :
    lookupGroup (mergeStep usr acc gname) g' = lookupGroup acc g' := by
  simp only [mergeStep]
  have hstep : ∀ acc1 : KeyFile, lookupGroup acc1 g' = lookupGroup acc g' →
      lookupGroup
        (if isPrivateName gname then acc1
         else
          ((getKeys usr gname).foldl (copyKeyStep usr gname)
            (if hasGroup acc1 gname then removeGroup acc1 gname else acc1))) g' =
      lookupGroup acc g' := by
    intro acc1 h1
    by_cases hp : isPrivateName gname = true
    · rw [if_pos hp]
      exact h1
    · rw [if_neg hp, lookupGroup_keysFold_ne _ _ _ hne]
      by_cases hh : hasGroup acc1 gname = true
      · rw [if_pos hh, lookupGroup_removeGroup_ne _ _ _ hne]
        exact h1
      · rw [if_neg hh]
        exact h1
  cases hc : getGroupComment usr gname with
  | some c =>
    simp only [hc]
    exact hstep _ (lookupGroup_setGroupComment_ne _ _ _ _ hne)
  | none =>
    simp only [hc]
    exact hstep _ rfl

theorem lookupGroup_mergeFold_not_mem (usr : KeyFile) (g' : String)
    (names : List String) (hnm : g' ∉ names) (acc : KeyFile) :
    lookupGroup (names.foldl (mergeStep usr) acc) g' = lookupGroup acc g' := by
  induction names generalizing acc with
  | nil => rfl
  | cons n ns ih =>
    rw [List.foldl_cons]
    have h1 : g' ∉ ns := fun h => hnm (List.mem_cons_of_mem _ h)
    have h2 : g' ≠ n := fun h => hnm (h ▸ List.mem_cons_self _ _)
    rw [ih h1, lookupGroup_mergeStep_ne _ _ _ _ h2]

theorem getValue_mergeStep_private (usr acc : KeyFile) (gname : String)
    (hp : isPrivateName gname = true) (g k : String) :
    getValue (mergeStep usr acc gname) g k = getValue acc g k := by
  simp only [mergeStep]
  cases hc : getGroupComment usr gname with
  | some c =>
    simp only [hc, hp, if_true]
    exact getValue_setGroupComment _ _ _ _ _
  | none =>
    simp only [hc, hp, if_true]

theorem getGroupComment_mergeStep_private (usr acc : KeyFile) (gname c : String)
    (hp : isPrivateName gname = true) (hc : getGroupComment usr gname = some c)
    (sg : KFGroup) (hacc : lookupGroup acc gname = some sg) :
    getGroupComment (mergeStep usr acc gname) gname = some c := by
  simp only [mergeStep, hc, hp, if_true]
  exact getGroupComment_setGroupComment_self _ _ _ _ hacc

theorem find?_entries_split (pre post : List KeyEntry) (e : KeyEntry)
    (hnodup : ((pre ++ e :: post).map (fun x => x.key)).Nodup) :
    (pre ++ e :: post).find? (fun x => x.key == e.key) = some e := by
  induction pre with
  | nil => simp [List.find?]
  | cons p pre ih =>
    have h1 : (p.key :: ((pre ++ e :: post).map (fun x => x.key))).Nodup := by
      simpa using hnodup
    have h2 := (List.nodup_cons.mp h1).1
    have hkey : p.key ≠ e.key := by
      intro he
      exact h2 (by rw [he]; exact List.mem_map_of_mem _ (by simp))
    rw [List.cons_append, List.find?_cons_of_neg _ (by simp [hkey])]
    exact ih (List.nodup_cons.mp h1).2

theorem find?_of_not_mem_keys (l : List KeyEntry) (k : String)
    (h : k ∉ l.map (fun x => x.key)) :
    l.find? (fun x => x.key == k) = none := by
  apply List.find?_eq_none.mpr
  intro x hx
  have : x.key ∈ l.map (fun x => x.key) := List.mem_map_of_mem _ hx
  simp only [beq_eq_false_iff_ne, ne_eq, beq_iff_eq]
  intro he
  exact h (he ▸ this)

theorem find?_strip_none (l : List KeyEntry) (k : String)
    (h : k ∉ l.map (fun x => x.key)) :
    (l.map stripEntry).find? (fun x => x.key == k) = none := by
  apply List.find?_eq_none.mpr
  intro x hx
  obtain ⟨y, hy, hxy⟩ := List.mem_map.mp hx
  have : y.key ∈ l.map (fun x => x.key) := List.mem_map_of_mem _ hy
  simp only [beq_iff_eq]
  intro he
  apply h
  rw [← he, ← hxy]
  exact this

theorem find?_map_strip (l : List KeyEntry) (k : String) :
    (l.map stripEntry).find? (fun x => x.key == k) =
      (l.find? (fun x => x.key == k)).map stripEntry := by
  induction l with
  | nil => rfl
  | cons e rest ih =>
    cases hk : (e.key == k) with
    | true => simp [List.find?, stripEntry, hk]
    | false => simp [List.find?, stripEntry, hk, ih]

theorem setKeyComment_noop_of_lookup_none (kf : KeyFile) (g k c : String)
    (h : lookupGroup kf g = none) : setKeyComment kf g k c = kf := by
  unfold setKeyComment
  unfold lookupGroup at h
  rw [updateGroup_of_find?_none _ _ _ h]

theorem setKeyComment_noop_of_no_key (kf : KeyFile) (g k c : String) (gr0 : KFGroup)
    (hl : lookupGroup kf g = some gr0) (hk : gr0.hasKey k = false) :
    setKeyComment kf g k c = kf := by
  unfold setKeyComment
  unfold lookupGroup at hl
  rw [updateGroup_of_fix _ _ _ gr0 hl (by rw [if_neg (by simp [hk])])]

/-- The key-copy loop of the merge, characterized: starting from a state in
which the target group holds exactly the already-copied (stripped) entries,
copying the remaining keys of the user group produces the fully stripped
user group (no group comment, no key comments), or no group at all when
the user group has no keys. -/
theorem keysFold_builds (usr : KeyFile) (gname : String) (ug : KFGroup)
    (husr : lookupGroup usr gname = some ug) :
    ∀ (post pre : List KeyEntry) (acc : KeyFile),
      ug.entries = pre ++ post →
      ((ug.entries.map (fun x => x.key)).Nodup) →
      lookupGroup acc gname =
        (if pre.isEmpty then none
         else some ⟨gname, none, pre.map stripEntry⟩) →
      lookupGroup ((post.map (fun x => x.key)).foldl (copyKeyStep usr gname) acc) gname =
        (if ug.entries.isEmpty then none
         else some ⟨gname, none, ug.entries.map stripEntry⟩) := by
  intro post
  induction post with
  | nil =>
    intro pre acc hsplit hnodup hacc
    simp only [List.map_nil, List.foldl_nil]
    rw [hacc, hsplit]
    simp
  | cons e post ih =>
    intro pre acc hsplit hnodup hacc
    have hnodup' : ((pre ++ e :: post).map (fun x => x.key)).Nodup := by
      rw [← hsplit]; exact hnodup
    have hfind : (pre ++ e :: post).find? (fun x => x.key == e.key) = some e :=
      find?_entries_split pre post e hnodup'
    have hGV : getValue usr gname e.key = some e.value := by
      unfold getValue
      rw [husr]
      simp only [Option.some_bind]
      unfold KFGroup.lookupEntry
      rw [hsplit, hfind]
      rfl
    have hKC : getKeyComment usr gname e.key = e.comment := by
      unfold getKeyComment
      rw [husr]
      simp only [Option.some_bind]
      unfold KFGroup.lookupEntry
      rw [hsplit, hfind]
      rfl
    have heknotin : e.key ∉ pre.map (fun x => x.key) := by
      have h1 : ((pre.map (fun x => x.key)) ++ ((e :: post).map (fun x => x.key))).Nodup := by
        simpa [List.map_append] using hnodup'
      have h2 := (List.nodup_append.mp h1).2.2
      intro hmem
      exact h2 hmem (by simp)
    have hstep : copyKeyStep usr gname acc e.key = setValue acc gname e.key e.value := by
      cases hec : e.comment with
      | none => simp only [copyKeyStep, hKC, hec, hGV, Option.getD_some]
      | some c =>
        simp only [copyKeyStep, hKC, hec, hGV, Option.getD_some]
        cases hpre : pre with
        | nil =>
          have hlacc : lookupGroup acc gname = none := by
            rw [hacc, hpre]
            rfl
          rw [setKeyComment_noop_of_lookup_none _ _ _ _ hlacc]
        | cons p pre' =>
          have hlacc : lookupGroup acc gname =
              some ⟨gname, none, (p :: pre').map stripEntry⟩ := by
            rw [hacc, hpre]
            rfl
          rw [setKeyComment_noop_of_no_key _ _ _ _ _ hlacc
            (by
              unfold KFGroup.hasKey KFGroup.lookupEntry
              rw [find?_strip_none _ _ (hpre ▸ heknotin)]
              rfl)]
    have hsv : lookupGroup (setValue acc gname e.key e.value) gname =
        some ⟨gname, none, (pre ++ [e]).map stripEntry⟩ := by
      cases hpre : pre with
      | nil =>
        have hlacc : lookupGroup acc gname = none := by
          rw [hacc, hpre]; rfl
        rw [lookupGroup_setValue_self_new _ _ _ _ (by unfold hasGroup; simp [hlacc])]
        rfl
      | cons p pre' =>
        have hlacc : lookupGroup acc gname =
            some ⟨gname, none, (p :: pre').map stripEntry⟩ := by
          rw [hacc, hpre]; rfl
        rw [lookupGroup_setValue_self_upd _ _ _ _ _ hlacc]
        have hnk : (⟨gname, none, (p :: pre').map stripEntry⟩ : KFGroup).hasKey e.key
            = false := by
          unfold KFGroup.hasKey KFGroup.lookupEntry
          rw [find?_strip_none _ _ (hpre ▸ heknotin)]
          rfl
        simp only [List.map_cons] at hnk
        unfold KFGroup.setEntryValue
        rw [if_neg (by simp [hnk])]
        simp [stripEntry]
    rw [List.map_cons, List.foldl_cons, hstep]
    exact ih (pre ++ [e]) (setValue acc gname e.key e.value)
      (by rw [hsplit, List.append_cons])
      hnodup
      (by rw [if_neg (by simp)]; exact hsv)

/-- One non-private merge step, characterized: the target group named
`gname` ends up holding exactly the user group's stripped entries — or is
absent entirely when the user group has no keys (the removal is not
followed by any re-creation then). -/
theorem lookupGroup_mergeStep_main (usr acc : KeyFile) (gname : String) (ug : KFGroup)
    (hp : isPrivateName gname = false)
    (husr : lookupGroup usr gname = some ug)
    (hkeys : (ug.entries.map (fun x => x.key)).Nodup) :
    lookupGroup (mergeStep usr acc gname) gname =
      (if ug.entries.isEmpty then none
       else some ⟨gname, none, ug.entries.map stripEntry⟩) := by
  simp only [mergeStep]
  have hkeys_eq : getKeys usr gname = ug.entries.map (fun x => x.key) := by
    unfold getKeys
    rw [husr]
    rfl
  have hmain : ∀ acc1 : KeyFile,
      lookupGroup
        ((getKeys usr gname).foldl (copyKeyStep usr gname)
          (if hasGroup acc1 gname then removeGroup acc1 gname else acc1)) gname =
      (if ug.entries.isEmpty then none
       else some ⟨gname, none, ug.entries.map stripEntry⟩) := by
    intro acc1
    have hacc2 : lookupGroup
        (if hasGroup acc1 gname then removeGroup acc1 gname else acc1) gname = none := by
      by_cases hh : hasGroup acc1 gname = true
      · rw [if_pos hh]
        exact lookupGroup_removeGroup_self _ _
      · rw [if_neg hh]
        exact Option.not_isSome_iff_eq_none.mp (by unfold hasGroup at hh; simpa using hh)
    rw [hkeys_eq]
    exact keysFold_builds usr gname ug husr ug.entries [] _ rfl hkeys
      (by rw [hacc2]; rfl)
  cases hc : getGroupComment usr gname with
  | some c =>
    simp only [hc, hp, Bool.false_eq_true, if_false]
    exact hmain _
  | none =>
    simp only [hc, hp, Bool.false_eq_true, if_false]
    exact hmain _

/-- C3 (amended): in the merge overlay, an overlay group whose name starts
with `_` contributes no keys — every value in the same-named target group
is untouched — but its group comment IS copied onto the target group
whenever that group already exists in the target (the comment copy
precedes the privacy test).  A non-private overlay group fully replaces
the same-named target group: the target group is deleted first and the
overlay's keys/values are copied in, so the resulting group holds exactly
the overlay's keys and values (an overlay group with zero keys leaves no
group at all); the attempted copies of the overlay group's comment and of
its key comments do not survive, because each copy is issued before the
group/key it addresses exists. -/
theorem c3_merge_overlay (sys usr : KeyFile) (g : String) (ug : KFGroup)
    (hnames : (getGroups usr).Nodup)
    (hug : lookupGroup usr g = some ug)
    (hkeys : (ug.entries.map (fun x => x.key)).Nodup) :
    (isPrivateName g = true →
      (∀ k, getValue (preset_merge sys usr) g k = getValue sys g k) ∧
      (∀ c sg, ug.comment = some c → lookupGroup sys g = some sg →
        getGroupComment (preset_merge sys usr) g = some c)) ∧
    (isPrivateName g = false →
      hasGroup (preset_merge sys usr) g = !ug.entries.isEmpty ∧
      getGroupComment (preset_merge sys usr) g = none ∧
      (∀ k, getKeyComment (preset_merge sys usr) g k = none) ∧
      (∀ k, getValue (preset_merge sys usr) g k =
        (ug.lookupEntry k).map (fun e => e.value))) := by
  have hug' : usr.groups.find? (fun gr => gr.name == g) = some ug := hug
  have hmemg : ug ∈ usr.groups := List.mem_of_find?_eq_some hug'
  have hgname : ug.name = g := by simpa using List.find?_some hug'
  have hmem : g ∈ getGroups usr := by
    unfold getGroups
    exact hgname ▸ List.mem_map_of_mem _ hmemg
  obtain ⟨l1, l2, hsplit⟩ := List.append_of_mem hmem
  have hnd : (l1 ++ g :: l2).Nodup := by rw [← hsplit]; exact hnames
  have hg_l1 : g ∉ l1 := by
    have hd := (List.nodup_append.mp hnd).2.2
    exact fun h => hd h (by simp)
  have hg_l2 : g ∉ l2 := by
    have hc2 := (List.nodup_append.mp hnd).2.1
    exact (List.nodup_cons.mp hc2).1
  suffices h : ∀ sys1 : KeyFile, lookupGroup sys1 g = lookupGroup sys g →
      (isPrivateName g = true →
        (∀ k, getValue ((l1 ++ g :: l2).foldl (mergeStep usr) sys1) g k
            = getValue sys g k) ∧
        (∀ c sg, ug.comment = some c → lookupGroup sys g = some sg →
          getGroupComment ((l1 ++ g :: l2).foldl (mergeStep usr) sys1) g = some c)) ∧
      (isPrivateName g = false →
        hasGroup ((l1 ++ g :: l2).foldl (mergeStep usr) sys1) g = !ug.entries.isEmpty ∧
        getGroupComment ((l1 ++ g :: l2).foldl (mergeStep usr) sys1) g = none ∧
        (∀ k, getKeyComment ((l1 ++ g :: l2).foldl (mergeStep usr) sys1) g k = none) ∧
        (∀ k, getValue ((l1 ++ g :: l2).foldl (mergeStep usr) sys1) g k =
          (ug.lookupEntry k).map (fun e => e.value))) by
    cases hfc : usr.fileComment with
    | some c =>
      simp only [preset_merge, hfc]
      rw [hsplit]
      exact h { sys with fileComment := some c } rfl
    | none =>
      simp only [preset_merge, hfc]
      rw [hsplit]
      exact h sys rfl
  intro sys1 h1
  have hfold : (l1 ++ g :: l2).foldl (mergeStep usr) sys1 =
      l2.foldl (mergeStep usr) (mergeStep usr (l1.foldl (mergeStep usr) sys1) g) := by
    rw [List.foldl_append, List.foldl_cons]
  have hAg : lookupGroup (l1.foldl (mergeStep usr) sys1) g = lookupGroup sys g := by
    rw [lookupGroup_mergeFold_not_mem usr g l1 hg_l1 sys1, h1]
  rw [hfold]
  have hframe2 : lookupGroup
      (l2.foldl (mergeStep usr) (mergeStep usr (l1.foldl (mergeStep usr) sys1) g)) g =
      lookupGroup (mergeStep usr (l1.foldl (mergeStep usr) sys1) g) g :=
    lookupGroup_mergeFold_not_mem usr g l2 hg_l2 _
  constructor
  · intro hp
    constructor
    · intro k
      rw [getValue_eq_of_lookup_eq _ _ _ _ hframe2,
        getValue_mergeStep_private usr _ g hp g k,
        getValue_eq_of_lookup_eq _ _ _ _ hAg]
    · intro c sg hc hsys
      have hcu : getGroupComment usr g = some c := by
        unfold getGroupComment
        rw [hug]
        simpa using hc
      have hAsg : lookupGroup (l1.foldl (mergeStep usr) sys1) g = some sg := by
        rw [hAg, hsys]
      rw [getGroupComment_eq_of_lookup_eq _ _ _ hframe2]
      exact getGroupComment_mergeStep_private usr _ g c hp hcu sg hAsg
  · intro hp
    have hmid := lookupGroup_mergeStep_main usr (l1.foldl (mergeStep usr) sys1) g ug hp
      hug hkeys
    have hall : lookupGroup
        (l2.foldl (mergeStep usr) (mergeStep usr (l1.foldl (mergeStep usr) sys1) g)) g =
        (if ug.entries.isEmpty then none
         else some ⟨g, none, ug.entries.map stripEntry⟩) := by
      rw [hframe2, hmid]
    refine ⟨?_, ?_, ?_, ?_⟩
    · unfold hasGroup
      rw [hall]
      cases hie : ug.entries.isEmpty <;> simp [hie]
    · unfold getGroupComment
      rw [hall]
      cases hie : ug.entries.isEmpty <;> simp [hie]
    · intro k
      unfold getKeyComment
      rw [hall]
      cases hie : ug.entries.isEmpty with
      | true => simp [hie]
      | false =>
        simp only [hie, Bool.false_eq_true, if_false, Option.some_bind]
        unfold KFGroup.lookupEntry
        simp only
        rw [find?_map_strip]
        cases hfe : ug.entries.find? (fun x => x.key == k) <;> simp [stripEntry]
    · intro k
      unfold getValue
      rw [hall]
      cases hie : ug.entries.isEmpty with
      | true =>
        have hnil : ug.entries = [] := by simpa using hie
        unfold KFGroup.lookupEntry
        rw [hnil]
        simp [hie, List.find?]
      | false =>
        simp only [hie, Bool.false_eq_true, if_false, Option.some_bind]
        unfold KFGroup.lookupEntry
        simp only
        rw [find?_map_strip]
        cases hfe : ug.entries.find? (fun x => x.key == k) <;> simp [stripEntry]

/-- C3 counterexample: the claim says an overlay group starting with `_`
contributes nothing, "neither its keys nor its comment".  Merging the
concrete user document onto the system document overwrites the system's
`_presets_` group comment with the user's, because the code copies the
group comment before testing for a private name. -/
theorem c3_counterexample :
    getGroupComment (preset_merge sysDocC3 usrDocC3) PRESET_HEADER =
      some ("user header comment") ∧
    getGroupComment sysDocC3 PRESET_HEADER = some ("system header comment") ∧
    getGroupComment (preset_merge sysDocC3 usrDocC3) PRESET_HEADER ≠
      getGroupComment sysDocC3 PRESET_HEADER := by
  refine ⟨by decide, by decide, by decide⟩

/-- C3 witness: the amended characterization applied to the concrete merge
of `usrDocC3` onto `sysDocC3`: the private `_presets_` group keeps the
system's keys but takes the user's comment; the non-private group `A` is
fully replaced by the user's keys (the system-only key `y` is gone, no
comments survive). -/
theorem c3_merge_overlay_witness :
    getValue (preset_merge sysDocC3 usrDocC3) PRESET_HEADER PRESET_HEADER_ELEMENT_NAME =
      getValue sysDocC3 PRESET_HEADER PRESET_HEADER_ELEMENT_NAME ∧
    getGroupComment (preset_merge sysDocC3 usrDocC3) PRESET_HEADER =
      some ("user header comment") ∧
    hasGroup (preset_merge sysDocC3 usrDocC3) ("A") = true ∧
    getGroupComment (preset_merge sysDocC3 usrDocC3) ("A") = none ∧
    getKeyComment (preset_merge sysDocC3 usrDocC3) ("A") ("x") = none ∧
    getValue (preset_merge sysDocC3 usrDocC3) ("A") ("x") = some ("usr-x") ∧
    getValue (preset_merge sysDocC3 usrDocC3) ("A") ("y") = none := by
  obtain ⟨hpriv, _⟩ := c3_merge_overlay sysDocC3 usrDocC3 PRESET_HEADER
    ⟨PRESET_HEADER, some ("user header comment"),
      [⟨PRESET_HEADER_ELEMENT_NAME, none, ("GstFakeElem")⟩]⟩
    (by decide) (by decide) (by decide)
  obtain ⟨hv, hcm⟩ := hpriv (by decide)
  obtain ⟨_, hpub⟩ := c3_merge_overlay sysDocC3 usrDocC3 ("A")
    ⟨("A"), some ("user A comment"), [⟨("x"), some ("user x comment"), ("usr-x")⟩]⟩
    (by decide) (by decide) (by decide)
  obtain ⟨hhas, hgc, hkc, hval⟩ := hpub (by decide)
  refine ⟨hv PRESET_HEADER_ELEMENT_NAME, ?_, ?_, hgc, hkc ("x"), ?_, ?_⟩
  · exact hcm ("user header comment")
      ⟨PRESET_HEADER, some ("system header comment"),
        [⟨PRESET_HEADER_ELEMENT_NAME, none, ("GstFakeElem")⟩]⟩ rfl (by decide)
  · rw [hhas]
    decide
  · rw [hval ("x")]
    decide
  · rw [hval ("y")]
    decide

end GstPreset
